import Mathlib

/-!
# Verification of the pdh-bridge relay / LFG coordinator

Shallow embedding of the core of the `pdh-bridge` repository:

* `src/config.js` — bridge configuration and `getRelayTargets`;
* `src/bridge.js` — `relayMessage`, `broadcastEmbed`, `deleteAcrossServers`,
  `ensureWebhook`;
* `src/database.js` — the LFG tables and `addLfgPlayer`, `removeLfgPlayer`,
  `getLfgPost`, `getLfgMessages`, `getExpiredLfgPosts`, `markLfgExpired`;
* `src/modules/lfg.js` — `handleLfgButton`, the fill-triggered delayed
  teardown, and `cleanupExpiredPosts`.

External I/O (webhook sends, remote message deletion, timer scheduling) is
modelled by explicit oracle arguments, so each operation is a pure function
from the database / channel state and the oracle to its result and new state.
A small-step interleaving semantics of the join protocol
(count → insert → re-count → compensating rollback) captures the concurrency
claims about the seat limit.
-/

set_option maxRecDepth 4000

namespace PdhBridge

/-! ## Configuration model (config.js)

A JS object such as `server.channels` is modelled as an association list in
insertion order (JS objects preserve insertion order for non-array-index
keys, which 18-digit guild-id strings are).  JS truthiness on the looked-up
string values is modelled explicitly: `undefined` (here `none`) and the
empty string are falsy. -/

structure ServerEntry where
  name : String
  channels : List (String × String)
  webhooks : List (String × String)
  roles : Option (List (String × String))
deriving DecidableEq, Repr

structure BridgeConfig where
  servers : List (String × ServerEntry)
deriving DecidableEq, Repr

def jsTruthy : Option String → Bool
  | none => false
  | some s => !(s == "")

/-- Object property lookup `obj[key]`. -/
def lookupProp (props : List (String × String)) (key : String) : Option String :=
  (props.find? (fun kv => kv.fst == key)).map (·.snd)

structure RelayTarget where
  guildId : String
  channelId : String
  webhookUrl : String
  rolePing : Option String
deriving DecidableEq, Repr

/-- `server.roles?.[channelType] || null` from config.js. -/
def rolePingOf (server : ServerEntry) (channelType : String) : Option String :=
  match server.roles with
  | none => none
  | some rs =>
    match lookupProp rs channelType with
    | none => none
    | some s => if s == "" then none else some s

/-- The loop body of `getRelayTargets` (config.js lines 105–119): walk the
server entries in insertion order, skip the excluded guild, and keep a
server only when both `server.channels[channelType]` and
`server.webhooks[channelType]` are truthy. -/
def relayTargetsOf : List (String × ServerEntry) → String → Option String → List RelayTarget
  | [], _, _ => []
  | gs :: rest, channelType, excludeGuildId =>
    let restTargets := relayTargetsOf rest channelType excludeGuildId
    if excludeGuildId == some gs.fst then restTargets
    else if jsTruthy (lookupProp gs.snd.channels channelType)
         && jsTruthy (lookupProp gs.snd.webhooks channelType) then
      { guildId := gs.fst,
        channelId := (lookupProp gs.snd.channels channelType).getD "",
        webhookUrl := (lookupProp gs.snd.webhooks channelType).getD "",
        rolePing := rolePingOf gs.snd channelType } :: restTargets
    else restTargets

/-- `getRelayTargets(config, channelType, excludeGuildId)` from config.js. -/
def getRelayTargets (config : BridgeConfig) (channelType : String)
    (excludeGuildId : Option String) : List RelayTarget :=
  relayTargetsOf config.servers channelType excludeGuildId

/-! ## Fan-out model (bridge.js)

The webhook send for one target is a potential network failure; it is
modelled by an oracle `send : RelayTarget → Option String` returning the
remote message id on success and `none` on failure (the thrown/rethrown
error that `Promise.allSettled` turns into a rejected entry). -/

structure SendRecord where
  guildId : String
  messageId : String
  channelId : String
deriving DecidableEq, Repr

inductive Settled (α : Type) where
  | fulfilled (value : α)
  | rejected
deriving DecidableEq, Repr

/-- `Promise.allSettled(targets.map(...))`: one settled outcome per target,
in target order; a target's failure is captured as `rejected` rather than
raised. -/
def fanOutSend (targets : List RelayTarget) (send : RelayTarget → Option String) :
    List (Settled SendRecord) :=
  targets.map (fun t =>
    match send t with
    | some mid => .fulfilled ⟨t.guildId, mid, t.channelId⟩
    | none => .rejected)

/-- `results.filter(r => r.status === 'fulfilled').map(r => r.value)`. -/
def fulfilledValues (results : List (Settled SendRecord)) : List SendRecord :=
  results.filterMap (fun r =>
    match r with
    | .fulfilled v => some v
    | .rejected => none)

/-- `relayMessage` (bridge.js lines 54–121), with the payload assembly
elided (it does not affect which targets are attempted or reported):
resolves the targets excluding the source guild, dispatches to every
target, and returns the per-target success records. -/
def relayMessage (config : BridgeConfig) (channelType : String) (sourceGuildId : String)
    (send : RelayTarget → Option String) : List SendRecord :=
  let targets := getRelayTargets config channelType (some sourceGuildId)
  if targets.length == 0 then []
  else fulfilledValues (fanOutSend targets send)

/-- Target list of `broadcastEmbed` (bridge.js lines 129–142): the relay
targets for the purpose, plus the source server appended when
`options.includeSource` is set and that server has a truthy channel and
webhook for the purpose. -/
def broadcastTargets (config : BridgeConfig) (channelType : String)
    (excludeGuildId includeSource : Option String) : List RelayTarget :=
  let targets := getRelayTargets config channelType excludeGuildId
  match includeSource with
  | none => targets
  | some src =>
    match (config.servers.find? (fun kv => kv.fst == src)).map (·.snd) with
    | none => targets
    | some server =>
      if jsTruthy (lookupProp server.channels channelType)
         && jsTruthy (lookupProp server.webhooks channelType) then
        targets ++ [{ guildId := src,
                      channelId := (lookupProp server.channels channelType).getD "",
                      webhookUrl := (lookupProp server.webhooks channelType).getD "",
                      rolePing := rolePingOf server channelType }]
      else targets

/-- `broadcastEmbed` (bridge.js lines 128–178), payload assembly elided:
same fan-out/collect structure as `relayMessage` over its target list. -/
def broadcastEmbed (config : BridgeConfig) (channelType : String)
    (excludeGuildId includeSource : Option String)
    (send : RelayTarget → Option String) : List SendRecord :=
  fulfilledValues (fanOutSend (broadcastTargets config channelType excludeGuildId includeSource) send)

/-! ## Endpoint lifecycle (bridge.js `ensureWebhook`) -/

structure ChannelWebhook where
  ownerId : Option String
  url : String
deriving DecidableEq, Repr

/-- `ensureWebhook(channel, botUser)` (bridge.js lines 206–228).  The
channel's actual webhook list is `whs`; `fetchOk` / `createOk` model the
two API calls throwing (insufficient permission, channel deleted), which
the surrounding try/catch converts into a `null` return.  The result is
the returned URL (or `none`) together with the channel's webhook list
after the call. -/
def ensureWebhook (whs : List ChannelWebhook) (botId : String)
    (fetchOk createOk : Bool) (newUrl : String) :
    Option String × List ChannelWebhook :=
  if !fetchOk then (none, whs)
  else
    match whs.find? (fun wh => wh.ownerId == some botId) with
    | some existing => (some existing.url, whs)
    | none =>
      if createOk then (some newUrl, whs ++ [⟨some botId, newUrl⟩])
      else (none, whs)

/-! ## LFG database model (database.js)

The three LFG tables are lists of rows.  `expires_at` timestamps are
naturals (ISO strings compare like their instants).  The
`UNIQUE(lfg_post_id, user_id)` constraint on `lfg_players` surfaces as the
duplicate check in `addLfgPlayer` (the caught `UNIQUE` exception). -/

structure LfgPost where
  id : Nat
  creatorId : String
  creatorName : String
  gameType : String
  notes : String
  maxPlayers : Nat
  currentPlayers : Nat
  expiresAt : Nat
  expired : Bool
deriving DecidableEq, Repr

structure LfgPlayerRow where
  postId : Nat
  userId : String
  username : String
deriving DecidableEq, Repr

structure LfgMessageRow where
  postId : Nat
  guildId : String
  channelId : String
  messageId : String
deriving DecidableEq, Repr

structure LfgDb where
  posts : List LfgPost
  players : List LfgPlayerRow
  messages : List LfgMessageRow
deriving DecidableEq, Repr

/-- `getLfgPost`: `SELECT * FROM lfg_posts WHERE id = ? AND expired = 0`
— a terminal (expired) post is invisible to the lookup. -/
def getLfgPost (db : LfgDb) (postId : Nat) : Option LfgPost :=
  db.posts.find? (fun p => p.id == postId && !p.expired)

/-- `SELECT COUNT(*) FROM lfg_players WHERE lfg_post_id = ?`. -/
def countLfgPlayers (db : LfgDb) (postId : Nat) : Nat :=
  (db.players.filter (fun r => r.postId == postId)).length

/-- Whether a `(post, user)` participant row exists — the condition under
which the `INSERT` raises a `UNIQUE` constraint violation. -/
def hasLfgPlayer (db : LfgDb) (postId : Nat) (userId : String) : Bool :=
  db.players.any (fun r => r.postId == postId && r.userId == userId)

/-- `UPDATE lfg_posts SET current_players = ? WHERE id = ?`. -/
def setCurrentPlayers (db : LfgDb) (postId : Nat) (c : Nat) : LfgDb :=
  { db with posts := db.posts.map (fun p =>
      if p.id == postId then { p with currentPlayers := c } else p) }

/-- `DELETE FROM lfg_players WHERE lfg_post_id = ? AND user_id = ?`. -/
def deleteLfgPlayerRows (db : LfgDb) (postId : Nat) (userId : String) : LfgDb :=
  { db with players := db.players.filter (fun r =>
      !(r.postId == postId && r.userId == userId)) }

inductive JoinReason where
  | postNotFound
  | lobbyFull
  | alreadyJoined
deriving DecidableEq, Repr

inductive JoinResult where
  | ok (currentPlayers maxPlayers : Nat)
  | fail (reason : JoinReason)
deriving DecidableEq, Repr

/-- `addLfgPlayer(postId, userId, username)` (database.js lines 169–214):
look up the (non-terminal) post; pre-check the seat count against the cap;
insert (a `UNIQUE` violation is caught and reported as `already_joined`);
re-count; if the re-count exceeds the cap, compensating rollback of the
just-inserted row and `lobby_full`; otherwise persist the count and
succeed. -/
def addLfgPlayer (db : LfgDb) (postId : Nat) (userId username : String) :
    JoinResult × LfgDb :=
  match getLfgPost db postId with
  | none => (.fail .postNotFound, db)
  | some post =>
    let currentCount := countLfgPlayers db postId
    if currentCount ≥ post.maxPlayers then (.fail .lobbyFull, db)
    else if hasLfgPlayer db postId userId then (.fail .alreadyJoined, db)
    else
      let db1 := { db with players := db.players ++ [⟨postId, userId, username⟩] }
      let newCount := countLfgPlayers db1 postId
      if newCount > post.maxPlayers then
        let db2 := deleteLfgPlayerRows db1 postId userId
        let corrected := countLfgPlayers db2 postId
        (.fail .lobbyFull, setCurrentPlayers db2 postId corrected)
      else
        (.ok newCount post.maxPlayers, setCurrentPlayers db1 postId newCount)

inductive LeaveResult where
  | ok (currentPlayers : Nat)
  | notInGame
deriving DecidableEq, Repr

/-- `removeLfgPlayer(postId, userId)` (database.js lines 216–224). -/
def removeLfgPlayer (db : LfgDb) (postId : Nat) (userId : String) :
    LeaveResult × LfgDb :=
  if hasLfgPlayer db postId userId then
    let db1 := deleteLfgPlayerRows db postId userId
    let c := countLfgPlayers db1 postId
    (.ok c, setCurrentPlayers db1 postId c)
  else (.notInGame, db)

/-- `SELECT * FROM lfg_messages WHERE lfg_post_id = ?`. -/
def getLfgMessages (db : LfgDb) (postId : Nat) : List LfgMessageRow :=
  db.messages.filter (fun m => m.postId == postId)

/-- `SELECT * FROM lfg_posts WHERE expired = 0 AND expires_at <= datetime('now')`. -/
def getExpiredLfgPosts (db : LfgDb) (now : Nat) : List LfgPost :=
  db.posts.filter (fun p => !p.expired && decide (p.expiresAt ≤ now))

/-- `UPDATE lfg_posts SET expired = 1 WHERE id = ?`. -/
def markLfgExpired (db : LfgDb) (postId : Nat) : LfgDb :=
  { db with posts := db.posts.map (fun p =>
      if p.id == postId then { p with expired := true } else p) }

/-! ## Cross-server teardown and the LFG button handler (bridge.js, lfg.js) -/

/-- Outcome of one remote delete attempt in `deleteAcrossServers`: every
constructor is swallowed by the code (missing guild/channel/message, a
failed delete) — none aborts the others. -/
inductive RemoteDeleteOutcome where
  | guildMissing
  | channelMissing
  | messageMissing
  | deleted
  | deleteFailed
deriving DecidableEq, Repr

/-- `deleteAcrossServers(client, messageMap)` (bridge.js lines 184–199):
each tracked message is attempted independently under
`Promise.allSettled`, with all error paths caught.  The JS function
returns nothing; here the per-record attempt trace is returned to make
"every record was attempted, whatever each outcome" observable. -/
def deleteAcrossServers (msgs : List LfgMessageRow)
    (remote : LfgMessageRow → RemoteDeleteOutcome) :
    List (LfgMessageRow × RemoteDeleteOutcome) :=
  msgs.map (fun m => (m, remote m))

inductive LfgAction where
  | join
  | leave
  | cancel
deriving DecidableEq, Repr

inductive LfgReply where
  | postGone
  | onlyCreatorCancel
  | cancelled
  | alreadyJoinedMsg
  | lobbyFullMsg
  | noReply
  | joined (currentPlayers maxPlayers : Nat)
  | hostCannotLeave
  | notInGameMsg
  | leftLobby (currentPlayers maxPlayers : Nat)
deriving DecidableEq, Repr

structure ButtonOutcome where
  reply : LfgReply
  db : LfgDb
  deletions : List (LfgMessageRow × RemoteDeleteOutcome)
  fillTimerScheduled : Bool
deriving DecidableEq, Repr

/-- `handleLfgButton` (lfg.js lines 210–321), with the custom-id string
already parsed into `(action, postId)` and the cross-server embed edits
(external, state-free) elided.  `remote` is the remote-delete oracle used
by the cancel branch.  `fillTimerScheduled` records whether the 30-second
fill teardown `setTimeout` was armed. -/
def handleLfgButton (db : LfgDb) (action : LfgAction) (postId : Nat)
    (userId username : String) (remote : LfgMessageRow → RemoteDeleteOutcome) :
    ButtonOutcome :=
  match getLfgPost db postId with
  | none => ⟨.postGone, db, [], false⟩
  | some post =>
    match action with
    | .cancel =>
      if userId == post.creatorId then
        let dels := deleteAcrossServers (getLfgMessages db postId) remote
        ⟨.cancelled, markLfgExpired db postId, dels, false⟩
      else ⟨.onlyCreatorCancel, db, [], false⟩
    | .join =>
      match addLfgPlayer db postId userId username with
      | (.fail .alreadyJoined, db1) => ⟨.alreadyJoinedMsg, db1, [], false⟩
      | (.fail .lobbyFull, db1) => ⟨.lobbyFullMsg, db1, [], false⟩
      | (.fail .postNotFound, db1) => ⟨.noReply, db1, [], false⟩
      | (.ok cur mx, db1) => ⟨.joined cur mx, db1, [], decide (cur ≥ mx)⟩
    | .leave =>
      if userId == post.creatorId then ⟨.hostCannotLeave, db, [], false⟩
      else
        match removeLfgPlayer db postId userId with
        | (.ok c, db1) => ⟨.leftLobby c post.maxPlayers, db1, [], false⟩
        | (.notInGame, db1) => ⟨.notInGameMsg, db1, [], false⟩

/-- The body of the fill-triggered `setTimeout` callback (lfg.js lines
280–289): fetch the tracked messages, best-effort delete them across all
servers, and mark the post expired.  Note the callback performs no
terminal-flag check before acting. -/
def fillTimerFire (db : LfgDb) (postId : Nat)
    (remote : LfgMessageRow → RemoteDeleteOutcome) :
    LfgDb × List (LfgMessageRow × RemoteDeleteOutcome) :=
  let dels := deleteAcrossServers (getLfgMessages db postId) remote
  (markLfgExpired db postId, dels)

/-- The loop of `cleanupExpiredPosts` (lfg.js lines 664–676) over the
pre-fetched expired post list: per post, best-effort delete its remote
copies, then mark it expired. -/
def cleanupLoop (db : LfgDb) (remote : LfgMessageRow → RemoteDeleteOutcome) :
    List LfgPost → LfgDb × List (LfgMessageRow × RemoteDeleteOutcome)
  | [] => (db, [])
  | p :: rest =>
    let dels := deleteAcrossServers (getLfgMessages db p.id) remote
    let out := cleanupLoop (markLfgExpired db p.id) remote rest
    (out.fst, dels ++ out.snd)

/-- `cleanupExpiredPosts(client)` (lfg.js lines 664–676) at sweep time
`now`. -/
def cleanupExpiredPosts (db : LfgDb) (now : Nat)
    (remote : LfgMessageRow → RemoteDeleteOutcome) :
    LfgDb × List (LfgMessageRow × RemoteDeleteOutcome) :=
  cleanupLoop db remote (getExpiredLfgPosts db now)

/-! ## Interleaving semantics of the join protocol (C1)

`addLfgPlayer` issues its SQL statements one at a time; SQLite serializes
individual statements but *not* the whole check-then-insert-then-verify
sequence, so statements of concurrent joins of the same post interleave.
Each SQL statement of the protocol is one atomic small step:

1. pre-check `SELECT COUNT` (and local branch),
2. `INSERT` (which atomically detects a `UNIQUE` duplicate),
3. re-count `SELECT COUNT` (and local branch),
4. either `UPDATE current_players` and success, or the rollback sequence
   `DELETE` / corrected `SELECT COUNT` / `UPDATE current_players` and
   `lobby_full`.

The shared state is the post's participant set (the `lfg_players` rows of
that post: a finite set of user ids, by the `UNIQUE` constraint) and the
post's cached `current_players` column; `L` is its immutable
`max_players`. -/

inductive JoinOutcome where
  | success (currentPlayers : Nat)
  | lobbyFull
  | alreadyJoined
deriving DecidableEq, Repr

inductive JoinPhase where
  | preCheck
  | insertRow
  | recount
  | rollbackDelete
  | rollbackRead
  | rollbackWrite (c : Nat)
  | commitWrite (c : Nat)
  | finished (r : JoinOutcome)
deriving DecidableEq, Repr

structure JoinThread where
  user : String
  phase : JoinPhase
deriving DecidableEq, Repr

structure JoinSys (n : Nat) where
  players : Finset String
  cached : Nat
  thr : Fin n → JoinThread

/-- One atomic statement of thread `i`'s join protocol. -/
def joinStep (L : Nat) {n : Nat} (s : JoinSys n) (i : Fin n) : JoinSys n :=
  let t := s.thr i
  match t.phase with
  | .preCheck =>
    if L ≤ s.players.card then
      { s with thr := Function.update s.thr i { t with phase := .finished .lobbyFull } }
    else
      { s with thr := Function.update s.thr i { t with phase := .insertRow } }
  | .insertRow =>
    if t.user ∈ s.players then
      { s with thr := Function.update s.thr i { t with phase := .finished .alreadyJoined } }
    else
      { players := insert t.user s.players, cached := s.cached,
        thr := Function.update s.thr i { t with phase := .recount } }
  | .recount =>
    if L < s.players.card then
      { s with thr := Function.update s.thr i { t with phase := .rollbackDelete } }
    else
      { s with thr := Function.update s.thr i { t with phase := .commitWrite s.players.card } }
  | .rollbackDelete =>
    { players := s.players.erase t.user, cached := s.cached,
      thr := Function.update s.thr i { t with phase := .rollbackRead } }
  | .rollbackRead =>
    { s with thr := Function.update s.thr i { t with phase := .rollbackWrite s.players.card } }
  | .rollbackWrite c =>
    { players := s.players, cached := c,
      thr := Function.update s.thr i { t with phase := .finished .lobbyFull } }
  | .commitWrite c =>
    { players := s.players, cached := c,
      thr := Function.update s.thr i { t with phase := .finished (.success c) } }
  | .finished _ => s

/-- Run an interleaving schedule of atomic statements. -/
def joinRun (L : Nat) {n : Nat} (s : JoinSys n) : List (Fin n) → JoinSys n
  | [] => s
  | i :: rest => joinRun L (joinStep L s i) rest

/-- Phases in which the thread owns a row of `lfg_players` it inserted and
has not deleted. -/
def holdsRow : JoinPhase → Bool
  | .recount => true
  | .rollbackDelete => true
  | .commitWrite _ => true
  | .finished (.success _) => true
  | _ => false

def isRecount : JoinPhase → Bool
  | .recount => true
  | _ => false

def isRollbackDelete : JoinPhase → Bool
  | .rollbackDelete => true
  | _ => false

def isCommitWrite : JoinPhase → Bool
  | .commitWrite _ => true
  | _ => false

/-- A committed join: the thread finished with `success`. -/
def isCommitted : JoinPhase → Bool
  | .finished (.success _) => true
  | _ => false

def isFinished : JoinPhase → Bool
  | .finished _ => true
  | _ => false

/-- Number of threads whose current phase satisfies `p`. -/
def countPh {n : Nat} (thr : Fin n → JoinThread) (p : JoinPhase → Bool) : Nat :=
  (Finset.univ.filter (fun i => p (thr i).phase = true)).card

/-- Inductive invariant of the interleaved join protocol on a post with
seat limit `L` and initial participant set `P0`. -/
structure JoinInv (L : Nat) (P0 : Finset String) {n : Nat} (s : JoinSys n) : Prop where
  initSub : P0 ⊆ s.players
  holderMem : ∀ i : Fin n, holdsRow (s.thr i).phase = true → (s.thr i).user ∈ s.players
  holderNew : ∀ i : Fin n, holdsRow (s.thr i).phase = true → (s.thr i).user ∉ P0
  holderInj : ∀ i j : Fin n, holdsRow (s.thr i).phase = true → holdsRow (s.thr j).phase = true →
    i ≠ j → (s.thr i).user ≠ (s.thr j).user
  cardBound : s.players.card ≤ L + countPh s.thr isRecount + countPh s.thr isRollbackDelete

lemma filter_update_eq {n : Nat} (thr : Fin n → JoinThread) (i : Fin n)
    (t' : JoinThread) (p : JoinPhase → Bool) :
    Finset.univ.filter (fun j => p ((Function.update thr i t' j).phase) = true)
      = if p t'.phase = true then
          insert i ((Finset.univ.filter (fun j => p ((thr j).phase) = true)).erase i)
        else (Finset.univ.filter (fun j => p ((thr j).phase) = true)).erase i := by
  ext j
  by_cases hj : j = i
  · subst hj
    by_cases hp : p t'.phase = true <;> simp [hp, Function.update_same]
  · by_cases hp : p t'.phase = true <;>
      simp [hp, Function.update_noteq hj, hj]

lemma countPh_update_congr {n : Nat} (thr : Fin n → JoinThread) (i : Fin n)
    (t' : JoinThread) (p : JoinPhase → Bool)
    (h : p t'.phase = p ((thr i).phase)) :
    countPh (Function.update thr i t') p = countPh thr p := by
  unfold countPh
  rw [filter_update_eq]
  by_cases hp : p t'.phase = true
  · have hi : i ∈ Finset.univ.filter (fun j => p ((thr j).phase) = true) := by
      simp [← h, hp]
    simp [hp, Finset.insert_erase hi]
  · have hi : i ∉ Finset.univ.filter (fun j => p ((thr j).phase) = true) := by
      simp [← h]
      simpa using hp
    simp [hp, Finset.erase_eq_of_not_mem hi]

lemma countPh_update_grow {n : Nat} (thr : Fin n → JoinThread) (i : Fin n)
    (t' : JoinThread) (p : JoinPhase → Bool)
    (h1 : p ((thr i).phase) = false) (h2 : p t'.phase = true) :
    countPh (Function.update thr i t') p = countPh thr p + 1 := by
  unfold countPh
  rw [filter_update_eq]
  have hi : i ∉ Finset.univ.filter (fun j => p ((thr j).phase) = true) := by
    simp [h1]
  rw [if_pos h2, Finset.erase_eq_of_not_mem hi, Finset.card_insert_of_not_mem hi]

lemma countPh_update_shrink {n : Nat} (thr : Fin n → JoinThread) (i : Fin n)
    (t' : JoinThread) (p : JoinPhase → Bool)
    (h1 : p ((thr i).phase) = true) (h2 : p t'.phase = false) :
    countPh (Function.update thr i t') p + 1 = countPh thr p := by
  unfold countPh
  rw [filter_update_eq]
  have hi : i ∈ Finset.univ.filter (fun j => p ((thr j).phase) = true) := by
    simp [h1]
  rw [if_neg (by simp [h2]), Finset.card_erase_add_one hi]

/-- Invariant preservation helper: a step that leaves the participant set
alone, only rewrites the cached count, and moves thread `i` to a phase
with the same row-ownership status. -/
lemma JoinInv.updatePhase {L : Nat} {P0 : Finset String} {n : Nat} {s : JoinSys n}
    (inv : JoinInv L P0 s) (i : Fin n) (ph' : JoinPhase) (c : Nat)
    (hh : holdsRow ph' = holdsRow (s.thr i).phase)
    (hcard : s.players.card ≤
        L + countPh (Function.update s.thr i { s.thr i with phase := ph' }) isRecount
          + countPh (Function.update s.thr i { s.thr i with phase := ph' }) isRollbackDelete) :
    JoinInv L P0 ⟨s.players, c, Function.update s.thr i { s.thr i with phase := ph' }⟩ := by
  constructor
  · exact inv.initSub
  · intro j hj
    by_cases hji : j = i
    · subst hji
      simp only [Function.update_same] at hj ⊢
      exact inv.holderMem j (by rw [← hh]; exact hj)
    · simp only [Function.update_noteq hji] at hj ⊢
      exact inv.holderMem j hj
  · intro j hj
    by_cases hji : j = i
    · subst hji
      simp only [Function.update_same] at hj ⊢
      exact inv.holderNew j (by rw [← hh]; exact hj)
    · simp only [Function.update_noteq hji] at hj ⊢
      exact inv.holderNew j hj
  · intro j k hj hk hjk
    by_cases hji : j = i <;> by_cases hki : k = i
    · exact absurd (hji.trans hki.symm) hjk
    · subst hji
      simp only [Function.update_same, Function.update_noteq hki] at hj hk ⊢
      exact inv.holderInj j k (by rw [← hh]; exact hj) hk hjk
    · subst hki
      simp only [Function.update_same, Function.update_noteq hji] at hj hk ⊢
      exact inv.holderInj j k hj (by rw [← hh]; exact hk) hjk
    · simp only [Function.update_noteq hji, Function.update_noteq hki] at hj hk ⊢
      exact inv.holderInj j k hj hk hjk
  · exact hcard

/-- The inductive invariant is preserved by every atomic statement of the
join protocol. -/
theorem joinInv_step {L : Nat} {P0 : Finset String} {n : Nat} {s : JoinSys n}
    (i : Fin n) (inv : JoinInv L P0 s) : JoinInv L P0 (joinStep L s i) := by
  rcases hph : (s.thr i).phase with _ | _ | _ | _ | _ | c | c | r <;>
    simp only [joinStep, hph]
  case preCheck =>
    split
    · exact inv.updatePhase i _ s.cached (by rw [hph]; rfl) (by
        rw [countPh_update_congr _ _ _ _ (by rw [hph]; rfl),
          countPh_update_congr _ _ _ _ (by rw [hph]; rfl)]
        exact inv.cardBound)
    · exact inv.updatePhase i _ s.cached (by rw [hph]; rfl) (by
        rw [countPh_update_congr _ _ _ _ (by rw [hph]; rfl),
          countPh_update_congr _ _ _ _ (by rw [hph]; rfl)]
        exact inv.cardBound)
  case insertRow =>
    split
    case isTrue hmem =>
      exact inv.updatePhase i _ s.cached (by rw [hph]; rfl) (by
        rw [countPh_update_congr _ _ _ _ (by rw [hph]; rfl),
          countPh_update_congr _ _ _ _ (by rw [hph]; rfl)]
        exact inv.cardBound)
    case isFalse hmem =>
      constructor
      · exact inv.initSub.trans (Finset.subset_insert _ _)
      · intro j hj
        by_cases hji : j = i
        · subst hji
          simp only [Function.update_same]
          exact Finset.mem_insert_self _ _
        · simp only [Function.update_noteq hji] at hj ⊢
          exact Finset.mem_insert_of_mem (inv.holderMem j hj)
      · intro j hj
        by_cases hji : j = i
        · subst hji
          simp only [Function.update_same]
          exact fun hP0 => hmem (inv.initSub hP0)
        · simp only [Function.update_noteq hji] at hj ⊢
          exact inv.holderNew j hj
      · intro j k hj hk hjk
        by_cases hji : j = i <;> by_cases hki : k = i
        · exact absurd (hji.trans hki.symm) hjk
        · subst hji
          simp only [Function.update_same, Function.update_noteq hki] at hj hk ⊢
          exact fun he => hmem (he ▸ inv.holderMem k hk)
        · subst hki
          simp only [Function.update_same, Function.update_noteq hji] at hj hk ⊢
          exact fun he => hmem (he ▸ inv.holderMem j hj)
        · simp only [Function.update_noteq hji, Function.update_noteq hki] at hj hk ⊢
          exact inv.holderInj j k hj hk hjk
      · have hA := countPh_update_grow s.thr i { s.thr i with phase := .recount } isRecount
          (by rw [hph]; rfl) rfl
        have hD := countPh_update_congr s.thr i { s.thr i with phase := .recount } isRollbackDelete
          (by rw [hph]; rfl)
        have hcard := Finset.card_insert_of_not_mem hmem
        have hb := inv.cardBound
        dsimp only
        rw [hcard, hA, hD]
        omega
  case recount =>
    split
    case isTrue hlt =>
      exact inv.updatePhase i _ s.cached (by rw [hph]; rfl) (by
        have hA := countPh_update_shrink s.thr i { s.thr i with phase := .rollbackDelete } isRecount
          (by rw [hph]; rfl) rfl
        have hD := countPh_update_grow s.thr i { s.thr i with phase := .rollbackDelete } isRollbackDelete
          (by rw [hph]; rfl) rfl
        have hb := inv.cardBound
        omega)
    case isFalse hlt =>
      exact inv.updatePhase i _ s.cached (by rw [hph]; rfl) (by
        have hA := countPh_update_shrink s.thr i { s.thr i with phase := .commitWrite s.players.card } isRecount
          (by rw [hph]; rfl) rfl
        have hD := countPh_update_congr s.thr i { s.thr i with phase := .commitWrite s.players.card } isRollbackDelete
          (by rw [hph]; rfl)
        have hle : s.players.card ≤ L := Nat.le_of_not_lt hlt
        omega)
  case rollbackDelete =>
    have hmemi : (s.thr i).user ∈ s.players := inv.holderMem i (by rw [hph]; rfl)
    constructor
    · intro x hx
      refine Finset.mem_erase.mpr ⟨?_, inv.initSub hx⟩
      intro hxe
      exact inv.holderNew i (by rw [hph]; rfl) (hxe ▸ hx)
    · intro j hj
      by_cases hji : j = i
      · subst hji
        simp only [Function.update_same] at hj
        exact absurd hj (by simp [holdsRow])
      · simp only [Function.update_noteq hji] at hj ⊢
        refine Finset.mem_erase.mpr ⟨?_, inv.holderMem j hj⟩
        exact inv.holderInj j i hj (by rw [hph]; rfl) hji
    · intro j hj
      by_cases hji : j = i
      · subst hji
        simp only [Function.update_same] at hj
        exact absurd hj (by simp [holdsRow])
      · simp only [Function.update_noteq hji] at hj ⊢
        exact inv.holderNew j hj
    · intro j k hj hk hjk
      by_cases hji : j = i
      · subst hji
        simp only [Function.update_same] at hj
        exact absurd hj (by simp [holdsRow])
      · by_cases hki : k = i
        · subst hki
          simp only [Function.update_same] at hk
          exact absurd hk (by simp [holdsRow])
        · simp only [Function.update_noteq hji, Function.update_noteq hki] at hj hk ⊢
          exact inv.holderInj j k hj hk hjk
    · have hA := countPh_update_congr s.thr i ⟨(s.thr i).user, .rollbackRead⟩ isRecount
        (by rw [hph]; rfl)
      have hD := countPh_update_shrink s.thr i ⟨(s.thr i).user, .rollbackRead⟩ isRollbackDelete
        (by rw [hph]; rfl) rfl
      have hcard := Finset.card_erase_of_mem hmemi
      have hb := inv.cardBound
      dsimp only
      rw [hcard]
      omega
  case rollbackRead =>
    exact inv.updatePhase i _ s.cached (by rw [hph]; rfl) (by
      rw [countPh_update_congr _ _ _ _ (by rw [hph]; rfl),
        countPh_update_congr _ _ _ _ (by rw [hph]; rfl)]
      exact inv.cardBound)
  case rollbackWrite =>
    exact inv.updatePhase i _ c (by rw [hph]; rfl) (by
      rw [countPh_update_congr _ _ _ _ (by rw [hph]; rfl),
        countPh_update_congr _ _ _ _ (by rw [hph]; rfl)]
      exact inv.cardBound)
  case commitWrite =>
    exact inv.updatePhase i _ c (by rw [hph]; rfl) (by
      rw [countPh_update_congr _ _ _ _ (by rw [hph]; rfl),
        countPh_update_congr _ _ _ _ (by rw [hph]; rfl)]
      exact inv.cardBound)
  case finished =>
    exact inv

theorem joinInv_run {L : Nat} {P0 : Finset String} {n : Nat} (s : JoinSys n)
    (sched : List (Fin n)) (inv : JoinInv L P0 s) : JoinInv L P0 (joinRun L s sched) := by
  induction sched generalizing s with
  | nil => exact inv
  | cons i rest ih => exact ih _ (joinInv_step i inv)

lemma holdsRow_eq (ph : JoinPhase) :
    holdsRow ph = (isRecount ph || isRollbackDelete ph || isCommitWrite ph || isCommitted ph) := by
  cases ph with
  | finished r => cases r <;> rfl
  | _ => rfl

lemma filter_classifier_disjoint {n : Nat} (thr : Fin n → JoinThread)
    (p q : JoinPhase → Bool) (h : ∀ ph, p ph = true → q ph = false) :
    Disjoint (Finset.univ.filter (fun i => p ((thr i).phase) = true))
      (Finset.univ.filter (fun i => q ((thr i).phase) = true)) := by
  rw [Finset.disjoint_left]
  intro a ha hb
  rw [Finset.mem_filter] at ha hb
  rw [h _ ha.2] at hb
  exact Bool.false_ne_true hb.2

lemma isRecount_excl (ph : JoinPhase) (hp : isRecount ph = true) :
    isRollbackDelete ph = false ∧ isCommitWrite ph = false ∧ isCommitted ph = false := by
  cases ph <;> simp_all [isRecount, isRollbackDelete, isCommitWrite, isCommitted]

lemma isRollbackDelete_excl (ph : JoinPhase) (hp : isRollbackDelete ph = true) :
    isCommitWrite ph = false ∧ isCommitted ph = false := by
  cases ph <;> simp_all [isRollbackDelete, isCommitWrite, isCommitted]

lemma isCommitWrite_excl (ph : JoinPhase) (hp : isCommitWrite ph = true) :
    isCommitted ph = false := by
  cases ph <;> simp_all [isCommitWrite, isCommitted]

/-- Consequence of the invariant: the number of committed participants —
the initial ones plus every join that has returned success — never
exceeds the seat limit. -/
theorem joinInv_committed {L : Nat} {P0 : Finset String} {n : Nat} {s : JoinSys n}
    (inv : JoinInv L P0 s) : P0.card + countPh s.thr isCommitted ≤ L := by
  have d12 : Disjoint
      (Finset.univ.filter (fun i : Fin n => isRecount ((s.thr i).phase) = true))
      (Finset.univ.filter (fun i : Fin n => isRollbackDelete ((s.thr i).phase) = true)) :=
    filter_classifier_disjoint _ _ _ (fun ph hp => (isRecount_excl ph hp).1)
  have d13 : Disjoint
      (Finset.univ.filter (fun i : Fin n => isRecount ((s.thr i).phase) = true))
      (Finset.univ.filter (fun i : Fin n => isCommitWrite ((s.thr i).phase) = true)) :=
    filter_classifier_disjoint _ _ _ (fun ph hp => (isRecount_excl ph hp).2.1)
  have d14 : Disjoint
      (Finset.univ.filter (fun i : Fin n => isRecount ((s.thr i).phase) = true))
      (Finset.univ.filter (fun i : Fin n => isCommitted ((s.thr i).phase) = true)) :=
    filter_classifier_disjoint _ _ _ (fun ph hp => (isRecount_excl ph hp).2.2)
  have d23 : Disjoint
      (Finset.univ.filter (fun i : Fin n => isRollbackDelete ((s.thr i).phase) = true))
      (Finset.univ.filter (fun i : Fin n => isCommitWrite ((s.thr i).phase) = true)) :=
    filter_classifier_disjoint _ _ _ (fun ph hp => (isRollbackDelete_excl ph hp).1)
  have d24 : Disjoint
      (Finset.univ.filter (fun i : Fin n => isRollbackDelete ((s.thr i).phase) = true))
      (Finset.univ.filter (fun i : Fin n => isCommitted ((s.thr i).phase) = true)) :=
    filter_classifier_disjoint _ _ _ (fun ph hp => (isRollbackDelete_excl ph hp).2)
  have d34 : Disjoint
      (Finset.univ.filter (fun i : Fin n => isCommitWrite ((s.thr i).phase) = true))
      (Finset.univ.filter (fun i : Fin n => isCommitted ((s.thr i).phase) = true)) :=
    filter_classifier_disjoint _ _ _ (fun ph hp => isCommitWrite_excl ph hp)
  set F1 := Finset.univ.filter (fun i : Fin n => isRecount ((s.thr i).phase) = true)
  set F2 := Finset.univ.filter (fun i : Fin n => isRollbackDelete ((s.thr i).phase) = true)
  set F3 := Finset.univ.filter (fun i : Fin n => isCommitWrite ((s.thr i).phase) = true)
  set F4 := Finset.univ.filter (fun i : Fin n => isCommitted ((s.thr i).phase) = true)
  set H := Finset.univ.filter (fun i : Fin n => holdsRow ((s.thr i).phase) = true) with hHdef
  have d123 : Disjoint (F1 ∪ F2) F3 := Finset.disjoint_union_left.mpr ⟨d13, d23⟩
  have d1234 : Disjoint (F1 ∪ F2 ∪ F3) F4 :=
    Finset.disjoint_union_left.mpr ⟨Finset.disjoint_union_left.mpr ⟨d14, d24⟩, d34⟩
  have c1234 : (F1 ∪ F2 ∪ F3 ∪ F4).card = F1.card + F2.card + F3.card + F4.card := by
    rw [Finset.card_union_of_disjoint d1234, Finset.card_union_of_disjoint d123,
      Finset.card_union_of_disjoint d12]
  have hunion : F1 ∪ F2 ∪ F3 ∪ F4 ⊆ H := by
    intro a ha
    simp only [Finset.mem_union] at ha
    rw [hHdef, Finset.mem_filter]
    refine ⟨Finset.mem_univ a, ?_⟩
    rw [holdsRow_eq]
    rcases ha with ((h | h) | h) | h <;> rw [Finset.mem_filter] at h <;> simp [h.2]
  have hdecomp : F1.card + F2.card + F3.card + F4.card ≤ H.card := by
    rw [← c1234]
    exact Finset.card_le_card hunion
  have hinj : Set.InjOn (fun i => (s.thr i).user) ↑H := by
    intro a ha b hb hab
    by_contra hne
    rw [Finset.mem_coe, hHdef, Finset.mem_filter] at ha hb
    exact inv.holderInj a b ha.2 hb.2 hne hab
  have himg : H.image (fun i => (s.thr i).user) ⊆ s.players \ P0 := by
    intro x hx
    rw [Finset.mem_image] at hx
    obtain ⟨a, ha, rfl⟩ := hx
    rw [hHdef, Finset.mem_filter] at ha
    exact Finset.mem_sdiff.mpr ⟨inv.holderMem a ha.2, inv.holderNew a ha.2⟩
  have hHcard : H.card ≤ (s.players \ P0).card := by
    rw [← Finset.card_image_of_injOn hinj]
    exact Finset.card_le_card himg
  have hsdiff : (s.players \ P0).card = s.players.card - P0.card := Finset.card_sdiff inv.initSub
  have hP0le : P0.card ≤ s.players.card := Finset.card_le_card inv.initSub
  have hbound := inv.cardBound
  have e1 : countPh s.thr isRecount = F1.card := rfl
  have e2 : countPh s.thr isRollbackDelete = F2.card := rfl
  have e4 : countPh s.thr isCommitted = F4.card := rfl
  rw [e4]
  rw [e1, e2] at hbound
  omega

lemma countPh_eq_zero {n : Nat} (thr : Fin n → JoinThread) (p : JoinPhase → Bool)
    (h : ∀ i, p ((thr i).phase) = false) : countPh thr p = 0 := by
  unfold countPh
  rw [Finset.card_eq_zero]
  ext i
  simp [h i]

lemma isFinished_excl (ph : JoinPhase) (hp : isFinished ph = true) :
    isRecount ph = false ∧ isRollbackDelete ph = false := by
  cases ph <;> simp_all [isFinished, isRecount, isRollbackDelete]

/-- **C1.** For every seat limit `L`, every initial participant set of at
most `L` seats, every collection of join attempts and every interleaving
of their atomic SQL statements (including two attempts that both pass the
initial count check before either inserts):
(1) the committed participants — the initial ones plus every join attempt
that has returned success — never number more than `L`, so in particular
at most one of two joins racing for the last seat commits;
(2) once every attempt has finished, the participant table itself holds at
most `L` rows;
(3) a join whose post-insert re-count exceeds `L` deletes exactly the
participant row it inserted and finishes with `lobby_full`. -/
theorem addLfgPlayer_seat_limit_invariant {n : Nat} (L : Nat) (P0 : Finset String)
    (c0 : Nat) (thr0 : Fin n → JoinThread) (sched : List (Fin n))
    (hstart : ∀ i, (thr0 i).phase = JoinPhase.preCheck)
    (hP0 : P0.card ≤ L) :
    (P0.card + countPh (joinRun L ⟨P0, c0, thr0⟩ sched).thr isCommitted ≤ L) ∧
    ((∀ i, isFinished ((joinRun L ⟨P0, c0, thr0⟩ sched).thr i).phase = true) →
      (joinRun L ⟨P0, c0, thr0⟩ sched).players.card ≤ L) ∧
    (∀ (s : JoinSys n) (i : Fin n), (s.thr i).phase = JoinPhase.recount →
      L < s.players.card →
      (joinRun L s [i, i, i, i]).players = s.players.erase ((s.thr i).user) ∧
      ((joinRun L s [i, i, i, i]).thr i).phase = JoinPhase.finished JoinOutcome.lobbyFull) := by
  have inv0 : JoinInv L P0 ⟨P0, c0, thr0⟩ := by
    constructor
    · exact Finset.Subset.refl P0
    · intro i hi
      rw [hstart i] at hi
      exact absurd hi (by simp [holdsRow])
    · intro i hi
      rw [hstart i] at hi
      exact absurd hi (by simp [holdsRow])
    · intro i j hi hj hij
      rw [hstart i] at hi
      exact absurd hi (by simp [holdsRow])
    · have hA : countPh thr0 isRecount = 0 :=
        countPh_eq_zero _ _ (fun i => by rw [hstart i]; rfl)
      have hD : countPh thr0 isRollbackDelete = 0 :=
        countPh_eq_zero _ _ (fun i => by rw [hstart i]; rfl)
      dsimp only
      omega
  have invRun := joinInv_run _ sched inv0
  refine ⟨joinInv_committed invRun, ?_, ?_⟩
  · intro hfin
    have hA : countPh (joinRun L ⟨P0, c0, thr0⟩ sched).thr isRecount = 0 :=
      countPh_eq_zero _ _ (fun i => (isFinished_excl _ (hfin i)).1)
    have hD : countPh (joinRun L ⟨P0, c0, thr0⟩ sched).thr isRollbackDelete = 0 :=
      countPh_eq_zero _ _ (fun i => (isFinished_excl _ (hfin i)).2)
    have hb := invRun.cardBound
    omega
  · intro s i hph hlt
    constructor <;>
      simp [joinRun, joinStep, hph, hlt, Function.update_same]

def demoThreads : Fin 2 → JoinThread :=
  fun i => if i = 0 then ⟨"dave", .preCheck⟩ else ⟨"erin", .preCheck⟩

/-- A schedule in which both joins pass the pre-check at count `L - 1`
before either inserts: thread 0 commits, thread 1 detects the race at the
re-count and rolls back. -/
def demoSched : List (Fin 2) := [0, 1, 0, 0, 1, 1, 1, 1, 0, 1]

/-- Witness for C1 at a concrete input: limit 4, three seats taken, two
racing joins. -/
theorem addLfgPlayer_seat_limit_witness :
    ({"alice", "bob", "carol"} : Finset String).card +
      countPh (joinRun 4 ⟨{"alice", "bob", "carol"}, 3, demoThreads⟩ demoSched).thr isCommitted ≤ 4 :=
  (addLfgPlayer_seat_limit_invariant 4 {"alice", "bob", "carol"} 3 demoThreads demoSched
    (by decide) (by decide)).1

/-! ## Shared lemmas for the fan-out and endpoint claims -/

lemma fulfilledValues_fanOutSend (targets : List RelayTarget)
    (send : RelayTarget → Option String) :
    fulfilledValues (fanOutSend targets send)
      = targets.filterMap (fun t =>
          (send t).map (fun mid => SendRecord.mk t.guildId mid t.channelId)) := by
  induction targets with
  | nil => rfl
  | cons t ts ih =>
    cases h : send t <;>
      simp [fanOutSend, fulfilledValues, List.filterMap_cons, h] <;>
      simpa [fanOutSend, fulfilledValues] using ih

lemma length_filterMap_add {α β : Type} (f : α → Option β) (ts : List α) :
    (ts.filterMap f).length + (ts.filter (fun t => (f t).isNone)).length = ts.length := by
  induction ts with
  | nil => rfl
  | cons a ts ih =>
    cases h : f a <;> simp [List.filterMap_cons, List.filter_cons, h] <;> omega

lemma find?_append_of_none {α : Type} (p : α → Bool) (l : List α) (a : α)
    (h : l.find? p = none) (ha : p a = true) :
    (l ++ [a]).find? p = some a := by
  induction l with
  | nil => simp [List.find?, ha]
  | cons x xs ih =>
    cases hx : p x with
    | true =>
      rw [List.find?_cons_of_pos _ hx] at h
      exact absurd h (by simp)
    | false =>
      rw [List.find?_cons_of_neg _ (by simp [hx])] at h
      rw [List.cons_append, List.find?_cons_of_neg _ (by simp [hx])]
      exact ih h

lemma isNone_map_send (send : RelayTarget → Option String) (t : RelayTarget) :
    ((send t).map (fun mid => SendRecord.mk t.guildId mid t.channelId)).isNone
      = (send t).isNone := by
  cases send t <;> rfl

/-- **C2.** For every configuration, purpose and send oracle, `relayMessage`
and `broadcastEmbed` return a value (they never raise), and that value is
exactly the list of per-target success records for the targets whose
delivery succeeded — a failed target appears only as an absent entry, and
one target failing never removes another target from the result.  In
particular, over N resolved targets of which exactly one always fails, the
result has N − 1 success records. -/
theorem fanout_failure_isolated (config : BridgeConfig)
    (channelType sourceGuildId : String) (excludeGuildId includeSource : Option String)
    (send : RelayTarget → Option String) :
    (relayMessage config channelType sourceGuildId send
      = (getRelayTargets config channelType (some sourceGuildId)).filterMap
          (fun t => (send t).map (fun mid => SendRecord.mk t.guildId mid t.channelId))) ∧
    (broadcastEmbed config channelType excludeGuildId includeSource send
      = (broadcastTargets config channelType excludeGuildId includeSource).filterMap
          (fun t => (send t).map (fun mid => SendRecord.mk t.guildId mid t.channelId))) ∧
    (((getRelayTargets config channelType (some sourceGuildId)).filter
        (fun t => (send t).isNone)).length = 1 →
      (relayMessage config channelType sourceGuildId send).length + 1
        = (getRelayTargets config channelType (some sourceGuildId)).length) ∧
    (((broadcastTargets config channelType excludeGuildId includeSource).filter
        (fun t => (send t).isNone)).length = 1 →
      (broadcastEmbed config channelType excludeGuildId includeSource send).length + 1
        = (broadcastTargets config channelType excludeGuildId includeSource).length) := by
  have hrelay : relayMessage config channelType sourceGuildId send
      = (getRelayTargets config channelType (some sourceGuildId)).filterMap
          (fun t => (send t).map (fun mid => SendRecord.mk t.guildId mid t.channelId)) := by
    unfold relayMessage
    cases htg : getRelayTargets config channelType (some sourceGuildId) with
    | nil => rfl
    | cons t ts => exact fulfilledValues_fanOutSend _ _
  have hbroadcast := fulfilledValues_fanOutSend
    (broadcastTargets config channelType excludeGuildId includeSource) send
  have hlen : ∀ (ts : List RelayTarget),
      (ts.filter (fun t => (send t).isNone)).length = 1 →
      (ts.filterMap (fun t =>
        (send t).map (fun mid => SendRecord.mk t.guildId mid t.channelId))).length + 1
        = ts.length := by
    intro ts h1
    have hadd := length_filterMap_add
      (fun t => (send t).map (fun mid => SendRecord.mk t.guildId mid t.channelId)) ts
    have hcong : ts.filter (fun t =>
        ((send t).map (fun mid => SendRecord.mk t.guildId mid t.channelId)).isNone)
        = ts.filter (fun t => (send t).isNone) :=
      List.filter_congr (fun t _ => isNone_map_send send t)
    rw [hcong, h1] at hadd
    omega
  exact ⟨hrelay, hbroadcast, fun h1 => by rw [hrelay]; exact hlen _ h1,
    fun h1 => by unfold broadcastEmbed; rw [hbroadcast]; exact hlen _ h1⟩

def demoServer (c w : String) : ServerEntry :=
  { name := "srv", channels := [("lfg", c)], webhooks := [("lfg", w)], roles := none }

def demoConfig : BridgeConfig :=
  ⟨[("g1", demoServer "c1" "w1"), ("g2", demoServer "c2" "w2"),
    ("g3", demoServer "c3" "w3"), ("g0", demoServer "c0" "w0")]⟩

/-- A send oracle that always fails for exactly one community. -/
def demoSend : RelayTarget → Option String :=
  fun t => if t.guildId == "g2" then none else some "mid"

/-- Witness for C2: 3 resolved targets, the second always failing, yield
2 success records. -/
theorem fanout_failure_isolated_witness :
    (relayMessage demoConfig "lfg" "g0" demoSend).length + 1
      = (getRelayTargets demoConfig "lfg" (some "g0")).length :=
  (fanout_failure_isolated demoConfig "lfg" "g0" none none demoSend).2.2.1 (by rfl)

/-- **C7.** `ensureWebhook` is idempotent and non-raising: with an owned
endpoint already on the channel it returns that endpoint's URL and
creates nothing (so a repeated call is a no-op); with none it creates and
returns one, and the next call returns that same endpoint unchanged; on a
fetch or create failure it returns `none` and leaves the channel's
endpoint list (and, since it never touches the config, the Registry)
unchanged. -/
theorem ensureWebhook_spec :
    (∀ (whs : List ChannelWebhook) (botId : String) (createOk : Bool)
        (newUrl : String) (wh : ChannelWebhook),
      whs.find? (fun w => w.ownerId == some botId) = some wh →
      ensureWebhook whs botId true createOk newUrl = (some wh.url, whs)) ∧
    (∀ (whs : List ChannelWebhook) (botId newUrl : String),
      whs.find? (fun w => w.ownerId == some botId) = none →
      ensureWebhook whs botId true true newUrl
        = (some newUrl, whs ++ [⟨some botId, newUrl⟩]) ∧
      ∀ (createOk : Bool) (newUrl2 : String),
        ensureWebhook (whs ++ [⟨some botId, newUrl⟩]) botId true createOk newUrl2
          = (some newUrl, whs ++ [⟨some botId, newUrl⟩])) ∧
    (∀ (whs : List ChannelWebhook) (botId : String) (createOk : Bool) (newUrl : String),
      ensureWebhook whs botId false createOk newUrl = (none, whs)) ∧
    (∀ (whs : List ChannelWebhook) (botId newUrl : String),
      whs.find? (fun w => w.ownerId == some botId) = none →
      ensureWebhook whs botId true false newUrl = (none, whs)) := by
  refine ⟨?_, ?_, ?_, ?_⟩
  · intro whs botId createOk newUrl wh hfind
    unfold ensureWebhook
    rw [hfind]
    rfl
  · intro whs botId newUrl hfind
    constructor
    · unfold ensureWebhook
      rw [hfind]
      rfl
    · intro createOk newUrl2
      unfold ensureWebhook
      rw [find?_append_of_none _ _ _ hfind (by simp)]
      rfl
  · intro whs botId createOk newUrl
    rfl
  · intro whs botId newUrl hfind
    unfold ensureWebhook
    rw [hfind]
    rfl

/-- Witness for C7: channel holding only a foreign webhook; the call
creates an owned one, and the repeated call is a no-op returning it. -/
theorem ensureWebhook_spec_witness :
    ensureWebhook [⟨some "other", "u0"⟩] "bot" true true "u1"
        = (some "u1", [⟨some "other", "u0"⟩, ⟨some "bot", "u1"⟩]) ∧
    ensureWebhook [⟨some "other", "u0"⟩, ⟨some "bot", "u1"⟩] "bot" true false "u2"
        = (some "u1", [⟨some "other", "u0"⟩, ⟨some "bot", "u1"⟩]) := by
  have h := (ensureWebhook_spec.2.1) [⟨some "other", "u0"⟩] "bot" "u1" (by rfl)
  exact ⟨h.1, h.2 false "u2"⟩

lemma relayTargetsOf_mem (channelType : String) (excludeGuildId : Option String) :
    ∀ (l : List (String × ServerEntry)) (t : RelayTarget),
      t ∈ relayTargetsOf l channelType excludeGuildId →
      excludeGuildId ≠ some t.guildId ∧
      ∃ server, (t.guildId, server) ∈ l ∧
        jsTruthy (lookupProp server.channels channelType) = true ∧
        jsTruthy (lookupProp server.webhooks channelType) = true := by
  intro l
  induction l with
  | nil =>
    intro t ht
    simp [relayTargetsOf] at ht
  | cons gs rest ih =>
    intro t ht
    rw [relayTargetsOf] at ht
    by_cases hex : (excludeGuildId == some gs.fst) = true
    · rw [if_pos hex] at ht
      obtain ⟨hne, server, hmem, hcw⟩ := ih t ht
      exact ⟨hne, server, List.mem_cons_of_mem _ hmem, hcw⟩
    · rw [if_neg hex] at ht
      by_cases hcw : (jsTruthy (lookupProp gs.snd.channels channelType)
          && jsTruthy (lookupProp gs.snd.webhooks channelType)) = true
      · rw [if_pos hcw] at ht
        rcases List.mem_cons.mp ht with hhd | htl
        · subst hhd
          refine ⟨by simpa using hex, gs.snd, ?_, ?_⟩
          · exact List.mem_cons_self _ _
          · simpa [Bool.and_eq_true] using hcw
        · obtain ⟨hne, server, hmem, h1, h2⟩ := ih t htl
          exact ⟨hne, server, List.mem_cons_of_mem _ hmem, h1, h2⟩
      · rw [if_neg hcw] at ht
        obtain ⟨hne, server, hmem, h1, h2⟩ := ih t ht
        exact ⟨hne, server, List.mem_cons_of_mem _ hmem, h1, h2⟩

lemma relayTargetsOf_order (channelType : String) (excludeGuildId : Option String) :
    ∀ (l : List (String × ServerEntry)),
      (relayTargetsOf l channelType excludeGuildId).map (fun t => t.guildId)
        = (l.filter (fun gs =>
            !(excludeGuildId == some gs.fst)
            && (jsTruthy (lookupProp gs.snd.channels channelType)
                && jsTruthy (lookupProp gs.snd.webhooks channelType)))).map (fun gs => gs.fst) := by
  intro l
  induction l with
  | nil => rfl
  | cons gs rest ih =>
    rw [relayTargetsOf, List.filter_cons]
    by_cases hex : (excludeGuildId == some gs.fst) = true
    · have hp : (!(excludeGuildId == some gs.fst)
          && (jsTruthy (lookupProp gs.snd.channels channelType)
              && jsTruthy (lookupProp gs.snd.webhooks channelType))) = false := by
        rw [hex]
        rfl
      rw [if_pos hex, hp, if_neg (by simp)]
      exact ih
    · rw [if_neg hex]
      rw [Bool.not_eq_true] at hex
      by_cases hcw : (jsTruthy (lookupProp gs.snd.channels channelType)
          && jsTruthy (lookupProp gs.snd.webhooks channelType)) = true
      · have hp : (!(excludeGuildId == some gs.fst)
            && (jsTruthy (lookupProp gs.snd.channels channelType)
                && jsTruthy (lookupProp gs.snd.webhooks channelType))) = true := by
          rw [hex, hcw]
          rfl
        rw [if_pos hcw, hp, if_pos rfl, List.map_cons, List.map_cons, ih]
      · have hp : (!(excludeGuildId == some gs.fst)
            && (jsTruthy (lookupProp gs.snd.channels channelType)
                && jsTruthy (lookupProp gs.snd.webhooks channelType))) = false := by
          rw [hex, Bool.not_eq_true] at *
          rw [hcw]
          rfl
        rw [if_neg hcw, hp, if_neg (by simp)]
        exact ih

/-- **C8.** `getRelayTargets` is a pure function of the configuration
(side-effect free by construction); for every configuration, purpose and
optional excluded community, every returned target belongs to a community
binding with both a (truthy) bound channel and a (truthy) endpoint for
that purpose — so no community lacking both can appear — the excluded
community never appears, and the targets list the qualifying communities
in insertion order of the bindings. -/
theorem getRelayTargets_spec (config : BridgeConfig) (channelType : String)
    (excludeGuildId : Option String) :
    (∀ t ∈ getRelayTargets config channelType excludeGuildId,
      excludeGuildId ≠ some t.guildId ∧
      ∃ server, (t.guildId, server) ∈ config.servers ∧
        jsTruthy (lookupProp server.channels channelType) = true ∧
        jsTruthy (lookupProp server.webhooks channelType) = true) ∧
    ((getRelayTargets config channelType excludeGuildId).map (fun t => t.guildId)
      = (config.servers.filter (fun gs =>
          !(excludeGuildId == some gs.fst)
          && (jsTruthy (lookupProp gs.snd.channels channelType)
              && jsTruthy (lookupProp gs.snd.webhooks channelType)))).map (fun gs => gs.fst)) :=
  ⟨fun t ht => relayTargetsOf_mem channelType excludeGuildId config.servers t ht,
   relayTargetsOf_order channelType excludeGuildId config.servers⟩

/-- Witness for C8 at a concrete configuration: excluding `g2` yields the
other communities in insertion order, and the first returned target comes
with its channel/endpoint bindings and is not the excluded community. -/
theorem getRelayTargets_spec_witness :
    ((getRelayTargets demoConfig "lfg" (some "g2")).map (fun t => t.guildId)
        = ["g1", "g3", "g0"]) ∧
    ((some "g2" : Option String) ≠ some "g1" ∧
      ∃ server, ("g1", server) ∈ demoConfig.servers ∧
        jsTruthy (lookupProp server.channels "lfg") = true ∧
        jsTruthy (lookupProp server.webhooks "lfg") = true) := by
  constructor
  · rw [(getRelayTargets_spec demoConfig "lfg" (some "g2")).2]
    rfl
  · exact (getRelayTargets_spec demoConfig "lfg" (some "g2")).1
      ⟨"g1", "c1", "w1", none⟩ (by decide)

/-! ## Shared lemmas for the LFG claims -/

lemma markLfgExpired_terminal (db : LfgDb) (postId : Nat) :
    ∀ p ∈ (markLfgExpired db postId).posts, p.id = postId → p.expired = true := by
  intro p hp hid
  unfold markLfgExpired at hp
  simp only [List.mem_map] at hp
  obtain ⟨q, hq, rfl⟩ := hp
  by_cases h : (q.id == postId) = true
  · rw [if_pos h]
  · rw [if_neg h] at hid ⊢
    exact absurd (by simp [hid]) h

lemma markLfgExpired_keeps (db : LfgDb) (x pid : Nat)
    (h : ∀ p ∈ db.posts, p.id = pid → p.expired = true) :
    ∀ p ∈ (markLfgExpired db x).posts, p.id = pid → p.expired = true := by
  intro p hp hid
  unfold markLfgExpired at hp
  simp only [List.mem_map] at hp
  obtain ⟨q, hq, rfl⟩ := hp
  by_cases hx : (q.id == x) = true
  · rw [if_pos hx]
  · rw [if_neg hx] at hid ⊢
    exact h q hq hid

lemma getLfgPost_terminal_none (db : LfgDb) (postId : Nat)
    (hterm : ∀ p ∈ db.posts, p.id = postId → p.expired = true) :
    getLfgPost db postId = none := by
  unfold getLfgPost
  rw [List.find?_eq_none]
  intro p hp hcond
  rw [Bool.and_eq_true, beq_iff_eq, Bool.not_eq_true'] at hcond
  rw [hterm p hp hcond.1] at hcond
  exact Bool.noConfusion hcond.2

lemma handleLfgButton_cancel_creator (db : LfgDb) (postId : Nat) (post : LfgPost)
    (username : String) (remote : LfgMessageRow → RemoteDeleteOutcome)
    (hpost : getLfgPost db postId = some post) :
    handleLfgButton db .cancel postId post.creatorId username remote
      = ⟨.cancelled, markLfgExpired db postId,
          (getLfgMessages db postId).map (fun m => (m, remote m)), false⟩ := by
  unfold handleLfgButton
  rw [hpost]
  dsimp only
  rw [if_pos (by rw [beq_iff_eq])]
  rfl

lemma handleLfgButton_cancel_other (db : LfgDb) (postId : Nat) (post : LfgPost)
    (userId username : String) (remote : LfgMessageRow → RemoteDeleteOutcome)
    (hpost : getLfgPost db postId = some post) (hne : userId ≠ post.creatorId) :
    handleLfgButton db .cancel postId userId username remote
      = ⟨.onlyCreatorCancel, db, [], false⟩ := by
  unfold handleLfgButton
  rw [hpost]
  dsimp only
  rw [if_neg (by rw [beq_iff_eq]; exact hne)]

lemma handleLfgButton_leave_creator (db : LfgDb) (postId : Nat) (post : LfgPost)
    (username : String) (remote : LfgMessageRow → RemoteDeleteOutcome)
    (hpost : getLfgPost db postId = some post) :
    handleLfgButton db .leave postId post.creatorId username remote
      = ⟨.hostCannotLeave, db, [], false⟩ := by
  unfold handleLfgButton
  rw [hpost]
  dsimp only
  rw [if_pos (by rw [beq_iff_eq])]

lemma cleanupLoop_marks (remote : LfgMessageRow → RemoteDeleteOutcome) :
    ∀ (l : List LfgPost) (db : LfgDb) (pid : Nat),
      (pid ∈ l.map (fun p => p.id) ∨ ∀ p ∈ db.posts, p.id = pid → p.expired = true) →
      ∀ p ∈ (cleanupLoop db remote l).fst.posts, p.id = pid → p.expired = true := by
  intro l
  induction l with
  | nil =>
    intro db pid h
    rcases h with h | h
    · simp at h
    · exact h
  | cons q rest ih =>
    intro db pid h
    rw [cleanupLoop]
    dsimp only
    refine ih (markLfgExpired db q.id) pid ?_
    rcases h with h | h
    · rw [List.map_cons, List.mem_cons] at h
      rcases h with h | h
      · subst h
        exact Or.inr (markLfgExpired_terminal db q.id)
      · exact Or.inl h
    · exact Or.inr (markLfgExpired_keeps db q.id pid h)

lemma getLfgMessages_markLfgExpired (db : LfgDb) (x postId : Nat) :
    getLfgMessages (markLfgExpired db x) postId = getLfgMessages db postId := rfl

lemma cleanupLoop_attempts (remote : LfgMessageRow → RemoteDeleteOutcome) :
    ∀ (l : List LfgPost) (db : LfgDb), ∀ q ∈ l, ∀ m ∈ getLfgMessages db q.id,
      (m, remote m) ∈ (cleanupLoop db remote l).snd := by
  intro l
  induction l with
  | nil =>
    intro db q hq
    simp at hq
  | cons r rest ih =>
    intro db q hq m hm
    rw [cleanupLoop]
    dsimp only
    rw [List.mem_append]
    rcases List.mem_cons.mp hq with hq | hq
    · subst hq
      exact Or.inl (by
        unfold deleteAcrossServers
        exact List.mem_map.mpr ⟨m, hm, rfl⟩)
    · refine Or.inr (ih (markLfgExpired db r.id) q hq m ?_)
      rw [getLfgMessages_markLfgExpired]
      exact hm

lemma LfgPost_set_expired_self (p : LfgPost) (h : p.expired = true) :
    { p with expired := true } = p := by
  cases p
  simp_all

lemma map_id_of_mem {α : Type} (l : List α) (f : α → α) (h : ∀ a ∈ l, f a = a) :
    l.map f = l := by
  induction l with
  | nil => rfl
  | cons a l ih =>
    rw [List.map_cons, h a (List.mem_cons_self a l),
      ih (fun b hb => h b (List.mem_cons_of_mem a hb))]

/-! ## Concrete databases used by witnesses and counterexamples -/

/-- A terminal (expired) post with one participant and one tracked copy. -/
def termDb : LfgDb :=
  ⟨[⟨1, "carl", "Carl", "casual", "", 4, 1, 50, true⟩],
   [⟨1, "carl", "Carl"⟩],
   [⟨1, "g1", "c1", "m1"⟩]⟩

/-- A non-terminal post with all four seats taken and one tracked copy. -/
def fullDb : LfgDb :=
  ⟨[⟨1, "carl", "Carl", "casual", "", 4, 4, 50, false⟩],
   [⟨1, "carl", "Carl"⟩, ⟨1, "dana", "Dana"⟩, ⟨1, "evan", "Evan"⟩, ⟨1, "fay", "Fay"⟩],
   [⟨1, "g1", "c1", "m1"⟩]⟩

/-- A non-terminal post with two of four seats taken and two tracked
copies; its expiry time (50) is in the past at sweep time 100. -/
def openDb : LfgDb :=
  ⟨[⟨1, "carl", "Carl", "casual", "", 4, 2, 50, false⟩],
   [⟨1, "carl", "Carl"⟩, ⟨1, "dana", "Dana"⟩],
   [⟨1, "g1", "c1", "m1"⟩, ⟨1, "g2", "c2", "m2"⟩]⟩

/-- **C3.** Terminal states are absorbing: for a post whose terminal flag
is set, the post lookup returns nothing, and every subsequent join, leave
or cancel button press is rejected with the post-gone reply, mutating
nothing (same database, no remote deletions, no fill timer). -/
theorem lfg_terminal_absorbing (db : LfgDb) (postId : Nat)
    (hterm : ∀ p ∈ db.posts, p.id = postId → p.expired = true) :
    getLfgPost db postId = none ∧
    ∀ (action : LfgAction) (userId username : String)
      (remote : LfgMessageRow → RemoteDeleteOutcome),
      handleLfgButton db action postId userId username remote
        = ⟨.postGone, db, [], false⟩ := by
  have hnone := getLfgPost_terminal_none db postId hterm
  refine ⟨hnone, ?_⟩
  intro action userId username remote
  unfold handleLfgButton
  rw [hnone]

/-- Witness for C3 on a concrete terminal post. -/
theorem lfg_terminal_absorbing_witness :
    getLfgPost termDb 1 = none ∧
    handleLfgButton termDb .join 1 "zoe" "Zoe" (fun _ => RemoteDeleteOutcome.deleted)
      = ⟨.postGone, termDb, [], false⟩ := by
  have h := lfg_terminal_absorbing termDb 1 (by decide)
  exact ⟨h.1, h.2 .join "zoe" "Zoe" (fun _ => RemoteDeleteOutcome.deleted)⟩

/-- **C9.** On a non-terminal post: a Leave by the creator is always
rejected without effect; a Cancel by the creator always succeeds, deleting
(best-effort) every recorded remote copy and marking the post terminal; a
Cancel by anyone else is rejected without effect. -/
theorem creator_leave_cancel_rules (db : LfgDb) (postId : Nat) (post : LfgPost)
    (userId username : String) (remote : LfgMessageRow → RemoteDeleteOutcome)
    (hpost : getLfgPost db postId = some post) :
    (handleLfgButton db .leave postId post.creatorId username remote
        = ⟨.hostCannotLeave, db, [], false⟩) ∧
    (handleLfgButton db .cancel postId post.creatorId username remote
        = ⟨.cancelled, markLfgExpired db postId,
            (getLfgMessages db postId).map (fun m => (m, remote m)), false⟩) ∧
    (∀ p ∈ (markLfgExpired db postId).posts, p.id = postId → p.expired = true) ∧
    (userId ≠ post.creatorId →
      handleLfgButton db .cancel postId userId username remote
        = ⟨.onlyCreatorCancel, db, [], false⟩) :=
  ⟨handleLfgButton_leave_creator db postId post username remote hpost,
   handleLfgButton_cancel_creator db postId post username remote hpost,
   markLfgExpired_terminal db postId,
   fun hne => handleLfgButton_cancel_other db postId post userId username remote hpost hne⟩

/-- Witness for C9 on a concrete open post. -/
theorem creator_leave_cancel_rules_witness :
    (handleLfgButton openDb .leave 1 "carl" "Zoe" (fun _ => RemoteDeleteOutcome.deleted)
        = ⟨.hostCannotLeave, openDb, [], false⟩) ∧
    (handleLfgButton openDb .cancel 1 "zoe" "Zoe" (fun _ => RemoteDeleteOutcome.deleted)
        = ⟨.onlyCreatorCancel, openDb, [], false⟩) := by
  have h := creator_leave_cancel_rules openDb 1
    ⟨1, "carl", "Carl", "casual", "", 4, 2, 50, false⟩ "zoe" "Zoe"
    (fun _ => RemoteDeleteOutcome.deleted) (by decide)
  exact ⟨h.1, h.2.2.2 (by decide)⟩

/-- **C4.** Teardown after Cancel and after the expiry sweep attempts a
best-effort remote delete of every recorded copy and always ends with the
terminal flag set, for every combination of per-copy outcomes (the remote
oracle is universally quantified, so in particular when every delete
fails). -/
theorem teardown_best_effort (db : LfgDb) (now : Nat)
    (remote : LfgMessageRow → RemoteDeleteOutcome) :
    (∀ (postId : Nat) (post : LfgPost) (username : String),
      getLfgPost db postId = some post →
      (∀ p ∈ (handleLfgButton db .cancel postId post.creatorId username remote).db.posts,
        p.id = postId → p.expired = true) ∧
      (handleLfgButton db .cancel postId post.creatorId username remote).deletions
        = (getLfgMessages db postId).map (fun m => (m, remote m))) ∧
    (∀ q ∈ db.posts, q.expired = false → q.expiresAt ≤ now →
      (∀ p ∈ (cleanupExpiredPosts db now remote).fst.posts, p.id = q.id → p.expired = true) ∧
      (∀ m ∈ getLfgMessages db q.id, (m, remote m) ∈ (cleanupExpiredPosts db now remote).snd)) := by
  constructor
  · intro postId post username hpost
    rw [handleLfgButton_cancel_creator db postId post username remote hpost]
    exact ⟨markLfgExpired_terminal db postId, rfl⟩
  · intro q hq hexp hle
    have hqmem : q ∈ getExpiredLfgPosts db now := by
      unfold getExpiredLfgPosts
      rw [List.mem_filter]
      refine ⟨hq, ?_⟩
      rw [hexp]
      simp [hle]
    constructor
    · exact cleanupLoop_marks remote _ db q.id
        (Or.inl (List.mem_map.mpr ⟨q, hqmem, rfl⟩))
    · intro m hm
      exact cleanupLoop_attempts remote _ db q hqmem m hm

/-- Witness for C4: a sweep over a concrete overdue post with every remote
delete failing still marks it terminal and attempts each recorded copy. -/
theorem teardown_best_effort_witness :
    (∀ p ∈ (cleanupExpiredPosts openDb 100 (fun _ => RemoteDeleteOutcome.deleteFailed)).fst.posts,
      p.id = 1 → p.expired = true) ∧
    ((⟨1, "g2", "c2", "m2"⟩ : LfgMessageRow), RemoteDeleteOutcome.deleteFailed)
      ∈ (cleanupExpiredPosts openDb 100 (fun _ => RemoteDeleteOutcome.deleteFailed)).snd := by
  have h := (teardown_best_effort openDb 100 (fun _ => RemoteDeleteOutcome.deleteFailed)).2
    ⟨1, "carl", "Carl", "casual", "", 4, 2, 50, false⟩ (by decide) (by decide) (by decide)
  exact ⟨h.1, h.2 ⟨1, "g2", "c2", "m2"⟩ (by decide)⟩

/-- Counterexample to C5 as stated: on a non-terminal post whose four
seats are all taken, a second join attempt by the existing participant
`dana` is rejected with `lobby_full`, not `already_joined` — the capacity
pre-check runs before the duplicate insert. -/
theorem already_joined_counterexample :
    (getLfgPost fullDb 1).isSome = true ∧
    hasLfgPlayer fullDb 1 "dana" = true ∧
    (addLfgPlayer fullDb 1 "dana" "Dana").fst = JoinResult.fail JoinReason.lobbyFull ∧
    (addLfgPlayer fullDb 1 "dana" "Dana").fst ≠ JoinResult.fail JoinReason.alreadyJoined := by
  decide

/-- **C5 (amended).** For every non-terminal post whose participant count
is below the seat limit at the pre-check, a second join attempt by an
existing participant fails with `already_joined` and the database — the
participant set and the persisted seat count — is unchanged. -/
theorem already_joined_second_attempt (db : LfgDb) (postId : Nat) (post : LfgPost)
    (userId username : String)
    (hpost : getLfgPost db postId = some post)
    (hnotfull : countLfgPlayers db postId < post.maxPlayers)
    (hmem : hasLfgPlayer db postId userId = true) :
    addLfgPlayer db postId userId username
      = (JoinResult.fail JoinReason.alreadyJoined, db) := by
  unfold addLfgPlayer
  rw [hpost]
  dsimp only
  rw [if_neg (Nat.not_le.mpr hnotfull), if_pos hmem]

/-- Witness for the amended C5 on a concrete half-full post. -/
theorem already_joined_second_attempt_witness :
    addLfgPlayer openDb 1 "dana" "Dana"
      = (JoinResult.fail JoinReason.alreadyJoined, openDb) :=
  already_joined_second_attempt openDb 1
    ⟨1, "carl", "Carl", "casual", "", 4, 2, 50, false⟩ "dana" "Dana"
    (by decide) (by decide) (by decide)

/-- **C10.** Because the capacity pre-check runs before the participant
insert, a join attempt on a post whose participant count already equals
its seat limit fails with `lobby_full` for every user — including a user
who is already a participant — and `already_joined` is only ever returned
when the count was below the limit at the pre-check. -/
theorem lobby_full_pre_check (db : LfgDb) (postId : Nat) (post : LfgPost)
    (hpost : getLfgPost db postId = some post)
    (hfull : countLfgPlayers db postId = post.maxPlayers) :
    (∀ userId username : String, addLfgPlayer db postId userId username
        = (JoinResult.fail JoinReason.lobbyFull, db)) ∧
    (∀ (db2 : LfgDb) (postId2 : Nat) (userId username : String),
      (addLfgPlayer db2 postId2 userId username).fst
        = JoinResult.fail JoinReason.alreadyJoined →
      ∃ post2, getLfgPost db2 postId2 = some post2 ∧
        countLfgPlayers db2 postId2 < post2.maxPlayers) := by
  constructor
  · intro userId username
    unfold addLfgPlayer
    rw [hpost]
    dsimp only
    rw [if_pos (Nat.le_of_eq hfull.symm)]
  · intro db2 postId2 userId username h
    unfold addLfgPlayer at h
    cases hp : getLfgPost db2 postId2 with
    | none =>
      rw [hp] at h
      exact absurd h (by simp)
    | some post2 =>
      rw [hp] at h
      dsimp only at h
      by_cases hc : countLfgPlayers db2 postId2 ≥ post2.maxPlayers
      · rw [if_pos hc] at h
        exact absurd h (by simp)
      · exact ⟨post2, rfl, Nat.lt_of_not_le hc⟩

/-- Witness for C10 on a concrete full post: both a newcomer and an
existing participant are rejected with `lobby_full`. -/
theorem lobby_full_pre_check_witness :
    (addLfgPlayer fullDb 1 "zoe" "Zoe" = (JoinResult.fail JoinReason.lobbyFull, fullDb)) ∧
    (addLfgPlayer fullDb 1 "dana" "Dana" = (JoinResult.fail JoinReason.lobbyFull, fullDb)) := by
  have h := lobby_full_pre_check fullDb 1
    ⟨1, "carl", "Carl", "casual", "", 4, 4, 50, false⟩ (by decide) (by decide)
  exact ⟨h.1 "zoe" "Zoe", h.1 "dana" "Dana"⟩

/-- Counterexample to C6 as stated: the fill-timer callback contains no
terminal-flag check and nothing ever cancels the armed timer; fired on an
already-terminal post with a tracked copy, it still performs the remote
teardown attempts, so it is not a no-op (its effect trace is nonempty). -/
theorem fill_timer_counterexample :
    (∀ p ∈ termDb.posts, p.id = 1 → p.expired = true) ∧
    (fillTimerFire termDb 1 (fun _ => RemoteDeleteOutcome.deleteFailed)).snd ≠ [] := by
  decide

/-- **C6 (amended).** The Fill-triggered teardown after the grace delay is
a fire-and-forget timer (the code never cancels it); when it fires on a
post that is already terminal it re-runs the best-effort teardown —
attempting a remote delete of every recorded copy — but leaves the
database unchanged, because re-marking the post terminal is idempotent. -/
theorem fill_timer_terminal_idempotent (db : LfgDb) (postId : Nat)
    (remote : LfgMessageRow → RemoteDeleteOutcome)
    (hterm : ∀ p ∈ db.posts, p.id = postId → p.expired = true) :
    (fillTimerFire db postId remote).fst = db ∧
    (fillTimerFire db postId remote).snd
      = (getLfgMessages db postId).map (fun m => (m, remote m)) := by
  constructor
  · show markLfgExpired db postId = db
    unfold markLfgExpired
    have hmap : db.posts.map
        (fun p => if p.id == postId then { p with expired := true } else p) = db.posts := by
      apply map_id_of_mem
      intro p hp
      by_cases h : (p.id == postId) = true
      · rw [if_pos h]
        exact LfgPost_set_expired_self p (hterm p hp (by rwa [beq_iff_eq] at h))
      · rw [if_neg h]
    rw [hmap]
  · rfl

/-- Witness for the amended C6 on a concrete terminal post. -/
theorem fill_timer_terminal_idempotent_witness :
    (fillTimerFire termDb 1 (fun _ => RemoteDeleteOutcome.deleteFailed)).fst = termDb ∧
    (fillTimerFire termDb 1 (fun _ => RemoteDeleteOutcome.deleteFailed)).snd
      = [(⟨1, "g1", "c1", "m1"⟩, RemoteDeleteOutcome.deleteFailed)] := by
  have h := fill_timer_terminal_idempotent termDb 1
    (fun _ => RemoteDeleteOutcome.deleteFailed) (by decide)
  refine ⟨h.1, ?_⟩
  rw [h.2]
  rfl

end PdhBridge
